import Mathlib

/-!
Shallow embedding of `src/server/api/routers/friendship-request-router.ts`:
a friendship-request workflow (send, accept, decline) over a relational
store with a `users` table and a `friendships` table of directed edges
`(userId, friendUserId, status)`.

The database state is modelled as lists of rows in insertion order.
Each SQL statement of the router is translated one-for-one:
`UPDATE ... WHERE userId = u AND friendUserId = f` maps every matching row,
`INSERT` appends a row, `SELECT ... executeTakeFirst` is `List.find?`, and
`executeTakeFirstOrThrow` raises `BAD_REQUEST` when `find?` is `none`.
Every operation returns its outcome together with the resulting database
state, so that state on error is observable.
-/

set_option maxRecDepth 8192

namespace FriendshipApp

/-- Status enum of `FriendshipStatusSchema`: requested | accepted | declined. -/
inductive FriendshipStatus where
  | requested
  | accepted
  | declined
deriving DecidableEq, Repr

/-- One row of the `friendships` table: a directed edge between two user ids. -/
structure Friendship where
  userId : Nat
  friendUserId : Nat
  status : FriendshipStatus
deriving DecidableEq, Repr

/-- The database state: the `users` table (its id column) and the
`friendships` table, as lists of rows in insertion order. -/
structure DB where
  users : List Nat
  friendships : List Friendship
deriving DecidableEq, Repr

/-- Errors an operation can surface: `BAD_REQUEST` is the `TRPCError` the
guards throw; `DB_FAILURE` models an error propagated from the data-access
layer (spec section 7: other failures propagate unchanged). -/
inductive ApiError where
  | BAD_REQUEST
  | DB_FAILURE
deriving DecidableEq, Repr

/-- `WHERE userId = u AND friendUserId = f` on a friendships row. -/
def matchesPair (u f : Nat) (r : Friendship) : Bool :=
  r.userId == u && r.friendUserId == f

/-- `UPDATE friendships SET status = s WHERE userId = u AND friendUserId = f`. -/
def updateStatus (u f : Nat) (s : FriendshipStatus) (rows : List Friendship) :
    List Friendship :=
  rows.map (fun r => if matchesPair u f r then { r with status := s } else r)

/-- Row filter of `canAnswerFriendshipRequest`:
`userId = f AND friendUserId = u AND status = 'requested'`. -/
def isPendingFrom (f u : Nat) (r : Friendship) : Bool :=
  r.userId == f && r.friendUserId == u && r.status == .requested

/-- `send`: guard `canSendFriendshipRequest` checks the target user exists,
then either re-requests an existing non-accepted edge `(userId, friendUserId)`
or inserts a fresh edge with status `requested`. -/
def send (userId friendUserId : Nat) (db : DB) : Except ApiError Unit × DB :=
  match db.users.find? (fun uid => uid == friendUserId) with
  | none => (.error .BAD_REQUEST, db)
  | some _ =>
    match db.friendships.find?
        (fun r => matchesPair userId friendUserId r && !(r.status == .accepted)) with
    | some _ =>
        (.ok (), { db with
          friendships := updateStatus userId friendUserId .requested db.friendships })
    | none =>
        (.ok (), { db with
          friendships := db.friendships ++ [⟨userId, friendUserId, .requested⟩] })

/-- Fault model for the statements inside the `accept` transaction: each flag
says whether the corresponding data-access statement throws. -/
structure DbFaults where
  updateFails : Bool
  selectFails : Bool
  writeFails : Bool
deriving DecidableEq, Repr

/-- The fault-free execution. -/
def noFaults : DbFaults := ⟨false, false, false⟩

/-- Body of the `accept` transaction, statement by statement:
update the edge `(friendUserId, userId)` to `accepted`, look for an existing
reverse edge `(userId, friendUserId)`, and insert it as `accepted` when
absent or update it to `accepted` when present. `none` models a statement
throwing, which aborts the transaction. -/
def acceptTxnBody (userId friendUserId : Nat) (faults : DbFaults)
    (rows : List Friendship) : Option (List Friendship) :=
  if faults.updateFails then none else
  let rows1 := updateStatus friendUserId userId .accepted rows
  if faults.selectFails then none else
  match rows1.find? (fun r => matchesPair userId friendUserId r) with
  | none =>
      if faults.writeFails then none
      else some (rows1 ++ [⟨userId, friendUserId, .accepted⟩])
  | some _ =>
      if faults.writeFails then none
      else some (updateStatus userId friendUserId .accepted rows1)

/-- `accept`: guard `canAnswerFriendshipRequest` requires a pending edge
`(friendUserId, userId, requested)`; the mutations run inside
`ctx.db.transaction()`, whose documented semantics roll the state back when
the body throws, so on failure the caller observes the unchanged state. -/
def acceptWith (userId friendUserId : Nat) (faults : DbFaults) (db : DB) :
    Except ApiError Unit × DB :=
  match db.friendships.find? (isPendingFrom friendUserId userId) with
  | none => (.error .BAD_REQUEST, db)
  | some _ =>
    match acceptTxnBody userId friendUserId faults db.friendships with
    | none => (.error .DB_FAILURE, db)
    | some rows => (.ok (), { db with friendships := rows })

/-- `accept` as the router runs it when no data-access statement fails. -/
def accept (userId friendUserId : Nat) (db : DB) : Except ApiError Unit × DB :=
  acceptWith userId friendUserId noFaults db

/-- `decline`: guard `canAnswerFriendshipRequest` as for `accept`, then a
single update of the edge `(friendUserId, userId)` to `declined`. -/
def decline (userId friendUserId : Nat) (db : DB) : Except ApiError Unit × DB :=
  match db.friendships.find? (isPendingFrom friendUserId userId) with
  | none => (.error .BAD_REQUEST, db)
  | some _ =>
    (.ok (), { db with
      friendships := updateStatus friendUserId userId .declined db.friendships })

/-- There is a row `(f, u)` with status `requested` (precondition of the
answer guard). -/
def pendingExists (f u : Nat) (db : DB) : Prop :=
  ∃ r ∈ db.friendships, r.userId = f ∧ r.friendUserId = u ∧ r.status = .requested

instance (f u : Nat) (db : DB) : Decidable (pendingExists f u db) := by
  unfold pendingExists; infer_instance

/-- A non-accepted edge `(u, f)` exists (the row the `send` branch looks for). -/
def nonAcceptedExists (u f : Nat) (db : DB) : Prop :=
  ∃ r ∈ db.friendships, r.userId = u ∧ r.friendUserId = f ∧ r.status ≠ .accepted

instance (u f : Nat) (db : DB) : Decidable (nonAcceptedExists u f db) := by
  unfold nonAcceptedExists; infer_instance

/-- An accepted edge `(a, b)` exists in the friendships table. -/
def hasAccepted (db : DB) (a b : Nat) : Bool :=
  db.friendships.any (fun r => matchesPair a b r && r.status == .accepted)

/-- Mutual-friendship invariant of spec section 3: an accepted edge `(a, b)`
exists exactly when the accepted edge `(b, a)` exists. -/
def MutualInv (db : DB) : Prop :=
  ∀ a b : Nat, hasAccepted db a b = true ↔ hasAccepted db b a = true

/-- The friendships table holds at most one row per ordered pair. -/
def AtMostOneEdge (db : DB) : Prop :=
  ∀ a b : Nat, db.friendships.countP (fun r => matchesPair a b r) ≤ 1

/-- Propositional form of `hasAccepted` on a row list. -/
def AccProp (rows : List Friendship) (a b : Nat) : Prop :=
  ∃ r ∈ rows, r.userId = a ∧ r.friendUserId = b ∧ r.status = .accepted

theorem hasAccepted_iff (db : DB) (a b : Nat) :
    hasAccepted db a b = true ↔ AccProp db.friendships a b := by
  unfold hasAccepted AccProp
  rw [List.any_eq_true]
  constructor
  · rintro ⟨r, hr, hp⟩
    simp only [matchesPair, Bool.and_eq_true, beq_iff_eq] at hp
    exact ⟨r, hr, hp.1.1, hp.1.2, hp.2⟩
  · rintro ⟨r, hr, h1, h2, h3⟩
    exact ⟨r, hr, by simp [matchesPair, h1, h2, h3]⟩

theorem mutualInv_iff (db : DB) :
    MutualInv db ↔
      ∀ a b : Nat, AccProp db.friendships a b ↔ AccProp db.friendships b a := by
  unfold MutualInv
  constructor
  · intro h a b
    rw [← hasAccepted_iff, ← hasAccepted_iff]; exact h a b
  · intro h a b
    rw [hasAccepted_iff, hasAccepted_iff]; exact h a b

theorem mem_updateStatus_iff (u f : Nat) (s : FriendshipStatus)
    (rows : List Friendship) (x : Friendship) :
    x ∈ updateStatus u f s rows ↔
      ∃ r ∈ rows, x = if matchesPair u f r then { r with status := s } else r := by
  unfold updateStatus
  rw [List.mem_map]
  constructor
  · rintro ⟨r, hr, hrx⟩
    exact ⟨r, hr, hrx.symm⟩
  · rintro ⟨r, hr, hrx⟩
    exact ⟨r, hr, hrx.symm⟩

theorem accProp_updateStatus_of_ne (u f a b : Nat) (s : FriendshipStatus)
    (rows : List Friendship) (h : a ≠ u ∨ b ≠ f) :
    AccProp (updateStatus u f s rows) a b ↔ AccProp rows a b := by
  constructor
  · rintro ⟨x, hx, hxa, hxb, hxs⟩
    rw [mem_updateStatus_iff] at hx
    obtain ⟨r, hr, hxr⟩ := hx
    by_cases hm : matchesPair u f r = true
    · simp only [hm, if_true] at hxr
      simp only [matchesPair, Bool.and_eq_true, beq_iff_eq] at hm
      rw [hxr] at hxa hxb
      simp only at hxa hxb
      rcases h with h | h
      · exact (h (by rw [← hxa]; exact hm.1)).elim
      · exact (h (by rw [← hxb]; exact hm.2)).elim
    · simp only [hm, Bool.false_eq_true, if_false] at hxr
      subst hxr
      exact ⟨x, hr, hxa, hxb, hxs⟩
  · rintro ⟨r, hr, hra, hrb, hrs⟩
    have hm : ¬ (matchesPair u f r = true) := by
      simp only [matchesPair, Bool.and_eq_true, beq_iff_eq, not_and]
      intro h1 h2
      rcases h with h | h
      · exact h (by rw [← hra]; exact h1)
      · exact h (by rw [← hrb]; exact h2)
    refine ⟨r, ?_, hra, hrb, hrs⟩
    rw [mem_updateStatus_iff]
    exact ⟨r, hr, by simp [hm]⟩

theorem not_accProp_updateStatus_self (u f : Nat) (s : FriendshipStatus)
    (rows : List Friendship) (hs : s ≠ .accepted) :
    ¬ AccProp (updateStatus u f s rows) u f := by
  rintro ⟨x, hx, hxa, hxb, hxs⟩
  rw [mem_updateStatus_iff] at hx
  obtain ⟨r, hr, hxr⟩ := hx
  by_cases hm : matchesPair u f r = true
  · simp only [hm, if_true] at hxr
    rw [hxr] at hxs
    exact hs hxs
  · simp only [hm, Bool.false_eq_true, if_false] at hxr
    subst hxr
    simp [matchesPair, hxa, hxb] at hm

theorem accProp_updateStatus_accepted_self (u f : Nat) (rows : List Friendship) :
    AccProp (updateStatus u f .accepted rows) u f ↔
      ∃ r ∈ rows, r.userId = u ∧ r.friendUserId = f := by
  constructor
  · rintro ⟨x, hx, hxa, hxb, _⟩
    rw [mem_updateStatus_iff] at hx
    obtain ⟨r, hr, hxr⟩ := hx
    by_cases hm : matchesPair u f r = true
    · simp only [matchesPair, Bool.and_eq_true, beq_iff_eq] at hm
      exact ⟨r, hr, hm.1, hm.2⟩
    · simp only [hm, Bool.false_eq_true, if_false] at hxr
      subst hxr
      exact ⟨x, hr, hxa, hxb⟩
  · rintro ⟨r, hr, hra, hrb⟩
    have hm : matchesPair u f r = true := by simp [matchesPair, hra, hrb]
    refine ⟨{ r with status := .accepted }, ?_, hra, hrb, rfl⟩
    rw [mem_updateStatus_iff]
    exact ⟨r, hr, by simp [hm]⟩

theorem accProp_append (rows l2 : List Friendship) (a b : Nat) :
    AccProp (rows ++ l2) a b ↔ AccProp rows a b ∨ AccProp l2 a b := by
  simp [AccProp, List.mem_append, or_and_right, exists_or]

theorem two_le_countP_of_mem {α : Type} (p : α → Bool) (l : List α) (x y : α)
    (hx : x ∈ l) (hy : y ∈ l) (hxy : x ≠ y) (hpx : p x = true) (hpy : p y = true) :
    2 ≤ l.countP p := by
  induction l with
  | nil => cases hx
  | cons z t ih =>
    rw [List.countP_cons]
    rcases List.mem_cons.mp hx with hxz | hxt
    · rcases List.mem_cons.mp hy with hyz | hyt
      · exact absurd (hxz.trans hyz.symm) hxy
      · have h1 : 0 < t.countP p := List.countP_pos_iff.mpr ⟨y, hyt, hpy⟩
        rw [if_pos (hxz ▸ hpx)]
        omega
    · rcases List.mem_cons.mp hy with hyz | hyt
      · have h1 : 0 < t.countP p := List.countP_pos_iff.mpr ⟨x, hxt, hpx⟩
        rw [if_pos (hyz ▸ hpy)]
        omega
      · have h2 := ih hxt hyt
        split <;> omega

theorem isPendingFrom_iff (f u : Nat) (r : Friendship) :
    isPendingFrom f u r = true ↔
      r.userId = f ∧ r.friendUserId = u ∧ r.status = .requested := by
  simp [isPendingFrom, Bool.and_eq_true, beq_iff_eq, and_assoc]

theorem pending_find_none_iff (f u : Nat) (db : DB) :
    db.friendships.find? (isPendingFrom f u) = none ↔ ¬ pendingExists f u db := by
  rw [List.find?_eq_none]
  unfold pendingExists
  constructor
  · rintro h ⟨r, hr, h1, h2, h3⟩
    exact h r hr ((isPendingFrom_iff f u r).mpr ⟨h1, h2, h3⟩)
  · intro h r hr hp
    rw [isPendingFrom_iff] at hp
    exact h ⟨r, hr, hp⟩

theorem users_find_none_iff (f : Nat) (db : DB) :
    db.users.find? (fun uid => uid == f) = none ↔ f ∉ db.users := by
  rw [List.find?_eq_none]
  constructor
  · intro h hmem
    exact h f hmem (by simp)
  · intro h uid hmem hp
    rw [beq_iff_eq] at hp
    exact h (hp ▸ hmem)

theorem nonAccepted_find_none_iff (u f : Nat) (db : DB) :
    db.friendships.find?
        (fun r => matchesPair u f r && !(r.status == .accepted)) = none ↔
      ¬ nonAcceptedExists u f db := by
  rw [List.find?_eq_none]
  unfold nonAcceptedExists
  constructor
  · rintro h ⟨r, hr, h1, h2, h3⟩
    exact h r hr (by simp [matchesPair, h1, h2, h3])
  · intro h r hr hp
    simp only [Bool.and_eq_true, matchesPair, beq_iff_eq, Bool.not_eq_eq_eq_not,
      Bool.not_true, beq_eq_false_iff_ne] at hp
    exact h ⟨r, hr, hp.1.1, hp.1.2, hp.2⟩

theorem accProp_singleton (x : Friendship) (a b : Nat) :
    AccProp [x] a b ↔ x.userId = a ∧ x.friendUserId = b ∧ x.status = .accepted := by
  simp [AccProp]

theorem not_accProp_of_atMostOne (u f : Nat) (rows : List Friendship)
    (hcount : rows.countP (fun r => matchesPair u f r) ≤ 1)
    (x : Friendship) (hx : x ∈ rows) (hxm : matchesPair u f x = true)
    (hxs : x.status ≠ .accepted) : ¬ AccProp rows u f := by
  rintro ⟨r, hr, hra, hrb, hrs⟩
  have hrm : matchesPair u f r = true := by simp [matchesPair, hra, hrb]
  have hne : x ≠ r := fun h => hxs (h ▸ hrs)
  have := two_le_countP_of_mem (fun r => matchesPair u f r) rows x r hx hr hne hxm hrm
  omega

theorem mutualInv_update_nonaccepted (u f : Nat) (s : FriendshipStatus)
    (hs : s ≠ .accepted) (rows : List Friendship)
    (hinv : ∀ a b : Nat, AccProp rows a b ↔ AccProp rows b a)
    (hnacc : ¬ AccProp rows u f) :
    ∀ a b : Nat, AccProp (updateStatus u f s rows) a b ↔
      AccProp (updateStatus u f s rows) b a := by
  intro a b
  by_cases hab : a = u ∧ b = f
  · obtain ⟨ha, hb⟩ := hab
    subst ha; subst hb
    have hL : ¬ AccProp (updateStatus a b s rows) a b :=
      not_accProp_updateStatus_self a b s rows hs
    by_cases hba : b = a
    · subst hba
      exact Iff.rfl
    · have hR : AccProp (updateStatus a b s rows) b a ↔ AccProp rows b a :=
        accProp_updateStatus_of_ne a b b a s rows (Or.inl hba)
      have hR2 : ¬ AccProp rows b a := fun h => hnacc ((hinv b a).mp h)
      constructor
      · intro h; exact (hL h).elim
      · intro h; exact (hR2 ((hR).mp h)).elim
  · by_cases hba : b = u ∧ a = f
    · obtain ⟨hb, ha⟩ := hba
      subst hb; subst ha
      have hfu : ¬ (a = b) := fun h => hab ⟨h, h ▸ rfl⟩
      have hL : AccProp (updateStatus b a s rows) a b ↔ AccProp rows a b :=
        accProp_updateStatus_of_ne b a a b s rows (Or.inl hfu)
      have hL2 : ¬ AccProp rows a b := fun h => hnacc ((hinv a b).mp h)
      have hR : ¬ AccProp (updateStatus b a s rows) b a :=
        not_accProp_updateStatus_self b a s rows hs
      constructor
      · intro h; exact (hL2 (hL.mp h)).elim
      · intro h; exact (hR h).elim
    · have hL : AccProp (updateStatus u f s rows) a b ↔ AccProp rows a b :=
        accProp_updateStatus_of_ne u f a b s rows (not_and_or.mp hab)
      have hR : AccProp (updateStatus u f s rows) b a ↔ AccProp rows b a :=
        accProp_updateStatus_of_ne u f b a s rows (not_and_or.mp hba)
      rw [hL, hR]
      exact hinv a b

theorem pending_of_find_some {f u : Nat} {db : DB} {x : Friendship}
    (h : db.friendships.find? (isPendingFrom f u) = some x) :
    pendingExists f u db :=
  ⟨x, List.mem_of_find?_eq_some h, (isPendingFrom_iff f u x).mp (List.find?_some h)⟩

theorem nonAccepted_of_find_some {u f : Nat} {db : DB} {x : Friendship}
    (h : db.friendships.find?
        (fun r => matchesPair u f r && !(r.status == .accepted)) = some x) :
    nonAcceptedExists u f db := by
  have hm := List.mem_of_find?_eq_some h
  have hp := List.find?_some h
  simp only [Bool.and_eq_true, matchesPair, beq_iff_eq, Bool.not_eq_eq_eq_not,
    Bool.not_true, beq_eq_false_iff_ne] at hp
  exact ⟨x, hm, hp.1.1, hp.1.2, hp.2⟩

theorem mem_users_of_find_some {f : Nat} {db : DB} {y : Nat}
    (h : db.users.find? (fun uid => uid == f) = some y) : f ∈ db.users := by
  have hm := List.mem_of_find?_eq_some h
  have hp := List.find?_some h
  rw [beq_iff_eq] at hp
  exact hp ▸ hm

theorem acceptTxnBody_noFaults (u f : Nat) (rows : List Friendship) :
    acceptTxnBody u f noFaults rows =
      some (match (updateStatus f u .accepted rows).find?
          (fun r => matchesPair u f r) with
        | none => updateStatus f u .accepted rows ++ [⟨u, f, .accepted⟩]
        | some _ =>
            updateStatus u f .accepted (updateStatus f u .accepted rows)) := by
  unfold acceptTxnBody noFaults
  cases hfind : (updateStatus f u .accepted rows).find? (fun r => matchesPair u f r) with
  | none => simp [hfind]
  | some x => simp [hfind]

theorem send_eq_of_not_mem (u f : Nat) (db : DB) (hmem : f ∉ db.users) :
    send u f db = (.error .BAD_REQUEST, db) := by
  unfold send
  cases hufind : db.users.find? (fun uid => uid == f) with
  | none => rfl
  | some y => exact absurd (mem_users_of_find_some hufind) hmem

theorem send_eq_update (u f : Nat) (db : DB) (hmem : f ∈ db.users)
    (hex : nonAcceptedExists u f db) :
    send u f db = (.ok (), ⟨db.users, updateStatus u f .requested db.friendships⟩) := by
  unfold send
  cases hufind : db.users.find? (fun uid => uid == f) with
  | none => exact absurd hmem ((users_find_none_iff f db).mp hufind)
  | some y =>
    cases hfind : db.friendships.find?
        (fun r => matchesPair u f r && !(r.status == .accepted)) with
    | none => exact absurd hex ((nonAccepted_find_none_iff u f db).mp hfind)
    | some x => rfl

theorem send_eq_insert (u f : Nat) (db : DB) (hmem : f ∈ db.users)
    (hnex : ¬ nonAcceptedExists u f db) :
    send u f db = (.ok (), ⟨db.users, db.friendships ++ [⟨u, f, .requested⟩]⟩) := by
  unfold send
  cases hufind : db.users.find? (fun uid => uid == f) with
  | none => exact absurd hmem ((users_find_none_iff f db).mp hufind)
  | some y =>
    cases hfind : db.friendships.find?
        (fun r => matchesPair u f r && !(r.status == .accepted)) with
    | none => rfl
    | some x => exact absurd (nonAccepted_of_find_some hfind) hnex

theorem decline_eq_of_not_pending (u f : Nat) (db : DB)
    (hnp : ¬ pendingExists f u db) :
    decline u f db = (.error .BAD_REQUEST, db) := by
  unfold decline
  cases hg : db.friendships.find? (isPendingFrom f u) with
  | none => rfl
  | some x => exact absurd (pending_of_find_some hg) hnp

theorem decline_eq_update (u f : Nat) (db : DB) (hpend : pendingExists f u db) :
    decline u f db =
      (.ok (), ⟨db.users, updateStatus f u .declined db.friendships⟩) := by
  unfold decline
  cases hg : db.friendships.find? (isPendingFrom f u) with
  | none => exact absurd hpend ((pending_find_none_iff f u db).mp hg)
  | some x => rfl

theorem accept_eq_of_not_pending (u f : Nat) (db : DB)
    (hnp : ¬ pendingExists f u db) :
    accept u f db = (.error .BAD_REQUEST, db) := by
  unfold accept acceptWith
  cases hg : db.friendships.find? (isPendingFrom f u) with
  | none => rfl
  | some x => exact absurd (pending_of_find_some hg) hnp

theorem accept_eq_insert (u f : Nat) (db : DB) (hpend : pendingExists f u db)
    (hfind : (updateStatus f u .accepted db.friendships).find?
      (fun r => matchesPair u f r) = none) :
    accept u f db = (.ok (), ⟨db.users,
      updateStatus f u .accepted db.friendships ++ [⟨u, f, .accepted⟩]⟩) := by
  unfold accept acceptWith
  cases hg : db.friendships.find? (isPendingFrom f u) with
  | none => exact absurd hpend ((pending_find_none_iff f u db).mp hg)
  | some x => rw [acceptTxnBody_noFaults u f db.friendships, hfind]

theorem accept_eq_update (u f : Nat) (db : DB) (hpend : pendingExists f u db)
    (z : Friendship)
    (hfind : (updateStatus f u .accepted db.friendships).find?
      (fun r => matchesPair u f r) = some z) :
    accept u f db = (.ok (), ⟨db.users,
      updateStatus u f .accepted (updateStatus f u .accepted db.friendships)⟩) := by
  unfold accept acceptWith
  cases hg : db.friendships.find? (isPendingFrom f u) with
  | none => exact absurd hpend ((pending_find_none_iff f u db).mp hg)
  | some x => rw [acceptTxnBody_noFaults u f db.friendships, hfind]

/-- C2: for an existing target user, `send` resets a prior non-accepted edge
`(u, f)` to `requested` when one exists, and otherwise inserts a fresh edge
`(u, f)` with status `requested`; in particular a previously declined edge is
re-opened as `requested`. -/
theorem send_requests_or_inserts (u f : Nat) (db : DB) (hmem : f ∈ db.users) :
    (nonAcceptedExists u f db →
        send u f db = (.ok (),
          { db with friendships := updateStatus u f .requested db.friendships })) ∧
    (¬ nonAcceptedExists u f db →
        send u f db = (.ok (),
          { db with friendships := db.friendships ++ [⟨u, f, .requested⟩] })) := by
  unfold send
  cases hufind : db.users.find? (fun uid => uid == f) with
  | none => exact absurd hmem ((users_find_none_iff f db).mp hufind)
  | some y =>
    constructor
    · intro hex
      cases hfind : db.friendships.find?
          (fun r => matchesPair u f r && !(r.status == .accepted)) with
      | none => exact absurd hex ((nonAccepted_find_none_iff u f db).mp hfind)
      | some x => rfl
    · intro hnex
      cases hfind : db.friendships.find?
          (fun r => matchesPair u f r && !(r.status == .accepted)) with
      | none => rfl
      | some x => exact absurd (nonAccepted_of_find_some hfind) hnex

theorem send_requests_or_inserts_witness :
    send 1 2 ⟨[1, 2], [⟨1, 2, .declined⟩]⟩ =
      (.ok (), ⟨[1, 2], [⟨1, 2, .requested⟩]⟩) := by
  have h := (send_requests_or_inserts 1 2 ⟨[1, 2], [⟨1, 2, .declined⟩]⟩
    (by decide)).1 (by decide)
  rw [h]
  rfl

/-- C3: with a pending request `(f, u)`, `decline` sets that edge's status to
`declined`, leaves the users table and the table length unchanged (so no
reciprocal edge is inserted), and leaves every row not keyed `(f, u)`
exactly as it was. -/
theorem decline_sets_declined (u f : Nat) (db : DB) (hpend : pendingExists f u db) :
    decline u f db = (.ok (),
      { db with friendships := updateStatus f u .declined db.friendships }) ∧
    (decline u f db).2.users = db.users ∧
    (decline u f db).2.friendships.length = db.friendships.length ∧
    ∀ i : Nat, (decline u f db).2.friendships[i]? =
      (db.friendships[i]?).map
        (fun r => if matchesPair f u r then { r with status := .declined } else r) := by
  have heq : decline u f db = (.ok (),
      { db with friendships := updateStatus f u .declined db.friendships }) := by
    unfold decline
    cases hg : db.friendships.find? (isPendingFrom f u) with
    | none => exact absurd hpend ((pending_find_none_iff f u db).mp hg)
    | some x => rfl
  refine ⟨heq, ?_, ?_, ?_⟩
  · rw [heq]
  · rw [heq]
    exact List.length_map _ _
  · intro i
    rw [heq]
    exact List.getElem?_map _ _ _

theorem decline_sets_declined_witness :
    decline 2 1 ⟨[1, 2], [⟨1, 2, .requested⟩, ⟨2, 1, .accepted⟩]⟩ =
      (.ok (), ⟨[1, 2], [⟨1, 2, .declined⟩, ⟨2, 1, .accepted⟩]⟩) := by
  have h := (decline_sets_declined 2 1
    ⟨[1, 2], [⟨1, 2, .requested⟩, ⟨2, 1, .accepted⟩]⟩ (by decide)).1
  rw [h]
  rfl

/-- C4: `send` raises `BAD_REQUEST` exactly when the target user does not
exist; `accept` (under any fault pattern) and `decline` raise `BAD_REQUEST`
exactly when no pending edge `(friendUserId, caller, requested)` exists. -/
theorem bad_request_iff (u f : Nat) (faults : DbFaults) (db : DB) :
    ((send u f db).1 = .error .BAD_REQUEST ↔ f ∉ db.users) ∧
    ((acceptWith u f faults db).1 = .error .BAD_REQUEST ↔ ¬ pendingExists f u db) ∧
    ((decline u f db).1 = .error .BAD_REQUEST ↔ ¬ pendingExists f u db) := by
  refine ⟨?_, ?_, ?_⟩
  · unfold send
    cases hufind : db.users.find? (fun uid => uid == f) with
    | none =>
      simp only [true_iff]
      exact (users_find_none_iff f db).mp hufind
    | some y =>
      have hmem := mem_users_of_find_some hufind
      cases hfind : db.friendships.find?
          (fun r => matchesPair u f r && !(r.status == .accepted)) with
      | none => simp [hmem]
      | some x => simp [hmem]
  · unfold acceptWith
    cases hg : db.friendships.find? (isPendingFrom f u) with
    | none =>
      simp only [true_iff]
      exact (pending_find_none_iff f u db).mp hg
    | some x =>
      have hpend := pending_of_find_some hg
      cases hbody : acceptTxnBody u f faults db.friendships with
      | none => simp [hpend]
      | some rows => simp [hpend]
  · unfold decline
    cases hg : db.friendships.find? (isPendingFrom f u) with
    | none =>
      simp only [true_iff]
      exact (pending_find_none_iff f u db).mp hg
    | some x =>
      have hpend := pending_of_find_some hg
      simp [hpend]

/-- C7: `send` never compares the target with the caller: when the caller's
own id exists in the users table, `send u u` succeeds and leaves a self-edge
`(u, u)` with status `requested` in the friendships table. -/
theorem send_self_allowed (u : Nat) (db : DB) (hmem : u ∈ db.users) :
    (send u u db).1 = .ok () ∧
    ∃ r ∈ (send u u db).2.friendships,
      r.userId = u ∧ r.friendUserId = u ∧ r.status = .requested := by
  by_cases hex : nonAcceptedExists u u db
  · have h := send_eq_update u u db hmem hex
    rw [h]
    refine ⟨rfl, ?_⟩
    obtain ⟨x, hx, hx1, hx2, _⟩ := hex
    have hm : matchesPair u u x = true := by simp [matchesPair, hx1, hx2]
    refine ⟨{ x with status := .requested }, ?_, hx1, hx2, rfl⟩
    rw [mem_updateStatus_iff]
    exact ⟨x, hx, by rw [if_pos hm]⟩
  · have h := send_eq_insert u u db hmem hex
    rw [h]
    exact ⟨rfl, ⟨u, u, .requested⟩, List.mem_append_right _ (List.mem_singleton.mpr rfl),
      rfl, rfl, rfl⟩

theorem send_self_allowed_witness :
    (send 1 1 ⟨[1], []⟩).1 = .ok () ∧
    ∃ r ∈ (send 1 1 ⟨[1], []⟩).2.friendships,
      r.userId = 1 ∧ r.friendUserId = 1 ∧ r.status = .requested :=
  send_self_allowed 1 ⟨[1], []⟩ (by decide)

/-- C9: each operation checks its guard before mutating, so whenever it
returns the `BAD_REQUEST` error the database state (users and friendships
tables) is exactly the state before the call. -/
theorem bad_request_leaves_state (u f : Nat) (faults : DbFaults) (db : DB) :
    ((send u f db).1 = .error .BAD_REQUEST → (send u f db).2 = db) ∧
    ((acceptWith u f faults db).1 = .error .BAD_REQUEST →
      (acceptWith u f faults db).2 = db) ∧
    ((decline u f db).1 = .error .BAD_REQUEST → (decline u f db).2 = db) := by
  refine ⟨?_, ?_, ?_⟩
  · unfold send
    cases hufind : db.users.find? (fun uid => uid == f) with
    | none => intro _; rfl
    | some y =>
      cases hfind : db.friendships.find?
          (fun r => matchesPair u f r && !(r.status == .accepted)) with
      | none => intro h; exact absurd h (by simp)
      | some x => intro h; exact absurd h (by simp)
  · unfold acceptWith
    cases hg : db.friendships.find? (isPendingFrom f u) with
    | none => intro _; rfl
    | some x =>
      cases hbody : acceptTxnBody u f faults db.friendships with
      | none => intro _; rfl
      | some rows => intro h; exact absurd h (by simp)
  · unfold decline
    cases hg : db.friendships.find? (isPendingFrom f u) with
    | none => intro _; rfl
    | some x => intro h; exact absurd h (by simp)

theorem bad_request_leaves_state_witness :
    (send 1 5 ⟨[1, 2], [⟨1, 2, .requested⟩]⟩).1 = .error .BAD_REQUEST ∧
    (send 1 5 ⟨[1, 2], [⟨1, 2, .requested⟩]⟩).2 = ⟨[1, 2], [⟨1, 2, .requested⟩]⟩ := by
  refine ⟨by rfl, ?_⟩
  exact (bad_request_leaves_state 1 5 noFaults ⟨[1, 2], [⟨1, 2, .requested⟩]⟩).1 (by rfl)

/-- C1: with a pending request `(f, u)`, `accept` succeeds and afterwards
both directed edges `(f, u)` and `(u, f)` exist with status `accepted`. -/
theorem accept_creates_mutual_edges (u f : Nat) (db : DB)
    (hpend : pendingExists f u db) :
    (accept u f db).1 = .ok () ∧
    hasAccepted (accept u f db).2 f u = true ∧
    hasAccepted (accept u f db).2 u f = true := by
  obtain ⟨x, hxmem, hx1, hx2, hx3⟩ := hpend
  have hg : ∃ y, db.friendships.find? (isPendingFrom f u) = some y := by
    cases hgc : db.friendships.find? (isPendingFrom f u) with
    | none =>
      exact absurd ⟨x, hxmem, hx1, hx2, hx3⟩ ((pending_find_none_iff f u db).mp hgc)
    | some y => exact ⟨y, rfl⟩
  obtain ⟨y, hg⟩ := hg
  have hfu0 : AccProp (updateStatus f u .accepted db.friendships) f u :=
    (accProp_updateStatus_accepted_self f u db.friendships).mpr ⟨x, hxmem, hx1, hx2⟩
  cases hfind : (updateStatus f u .accepted db.friendships).find?
      (fun r => matchesPair u f r) with
  | none =>
    have hacc : accept u f db = (.ok (), ⟨db.users,
        updateStatus f u .accepted db.friendships ++ [⟨u, f, .accepted⟩]⟩) := by
      unfold accept acceptWith
      rw [hg, acceptTxnBody_noFaults u f db.friendships, hfind]
    rw [hacc]
    refine ⟨rfl, ?_, ?_⟩
    · rw [hasAccepted_iff]
      exact (accProp_append _ _ f u).mpr (Or.inl hfu0)
    · rw [hasAccepted_iff]
      exact (accProp_append _ _ u f).mpr
        (Or.inr ((accProp_singleton _ u f).mpr ⟨rfl, rfl, rfl⟩))
  | some z =>
    have hacc : accept u f db = (.ok (), ⟨db.users,
        updateStatus u f .accepted (updateStatus f u .accepted db.friendships)⟩) := by
      unfold accept acceptWith
      rw [hg, acceptTxnBody_noFaults u f db.friendships, hfind]
    rw [hacc]
    refine ⟨rfl, ?_, ?_⟩
    · rw [hasAccepted_iff]
      by_cases huf : u = f
      · subst huf
        exact (accProp_updateStatus_accepted_self u u _).mpr
          ⟨z, List.mem_of_find?_eq_some hfind, by
            have := List.find?_some hfind
            simp only [matchesPair, Bool.and_eq_true, beq_iff_eq] at this
            exact ⟨this.1, this.2⟩⟩
      · rw [accProp_updateStatus_of_ne u f f u .accepted _
          (Or.inl (fun hh => huf hh.symm))]
        exact hfu0
    · rw [hasAccepted_iff]
      have hz := List.find?_some hfind
      simp only [matchesPair, Bool.and_eq_true, beq_iff_eq] at hz
      exact (accProp_updateStatus_accepted_self u f _).mpr
        ⟨z, List.mem_of_find?_eq_some hfind, hz.1, hz.2⟩

theorem accept_creates_mutual_edges_witness :
    (accept 2 1 ⟨[1, 2], [⟨1, 2, .requested⟩]⟩).1 = .ok () ∧
    hasAccepted (accept 2 1 ⟨[1, 2], [⟨1, 2, .requested⟩]⟩).2 1 2 = true ∧
    hasAccepted (accept 2 1 ⟨[1, 2], [⟨1, 2, .requested⟩]⟩).2 2 1 = true :=
  accept_creates_mutual_edges 2 1 ⟨[1, 2], [⟨1, 2, .requested⟩]⟩
    ⟨⟨1, 2, .requested⟩, by decide, rfl, rfl, rfl⟩

/-- C5: both mutating statements of `accept` run inside one transaction:
whenever any data-access statement of the body fails, the transaction rolls
back, the call reports an error, and the database state is exactly the state
before the call (no partial mutation persists); with no failure the call
behaves as `accept`. -/
theorem accept_transaction_atomic (u f : Nat) (faults : DbFaults) (db : DB)
    (hf : faults.updateFails = true ∨ faults.selectFails = true ∨
      faults.writeFails = true) :
    (acceptWith u f faults db).2 = db ∧
    (∃ e, (acceptWith u f faults db).1 = .error e) ∧
    acceptWith u f noFaults db = accept u f db := by
  have hbody : acceptTxnBody u f faults db.friendships = none := by
    rcases faults with ⟨fu, fs, fw⟩
    unfold acceptTxnBody
    simp only [] at hf ⊢
    cases fu with
    | true => rfl
    | false =>
      cases fs with
      | true => simp
      | false =>
        cases fw with
        | false => simp at hf
        | true =>
          cases hfind : (updateStatus f u .accepted db.friendships).find?
              (fun r => matchesPair u f r) with
          | none => simp [hfind]
          | some x => simp [hfind]
  refine ⟨?_, ?_, rfl⟩
  · unfold acceptWith
    cases hg : db.friendships.find? (isPendingFrom f u) with
    | none => rfl
    | some x => rw [hbody]
  · unfold acceptWith
    cases hg : db.friendships.find? (isPendingFrom f u) with
    | none => exact ⟨.BAD_REQUEST, rfl⟩
    | some x =>
      rw [hbody]
      exact ⟨.DB_FAILURE, rfl⟩

theorem accept_transaction_atomic_witness :
    (acceptWith 2 1 ⟨false, false, true⟩ ⟨[1, 2], [⟨1, 2, .requested⟩]⟩).2 =
      ⟨[1, 2], [⟨1, 2, .requested⟩]⟩ ∧
    (∃ e, (acceptWith 2 1 ⟨false, false, true⟩
      ⟨[1, 2], [⟨1, 2, .requested⟩]⟩).1 = .error e) := by
  have h := accept_transaction_atomic 2 1 ⟨false, false, true⟩
    ⟨[1, 2], [⟨1, 2, .requested⟩]⟩ (Or.inr (Or.inr rfl))
  exact ⟨h.1, h.2.1⟩

theorem accept_rows_inv (u f : Nat) (rows rows2 : List Friendship)
    (h1 : AccProp rows2 f u) (h2 : AccProp rows2 u f)
    (hother : ∀ a b : Nat, ¬ (a = f ∧ b = u) → ¬ (a = u ∧ b = f) →
      (AccProp rows2 a b ↔ AccProp rows a b))
    (hinvP : ∀ a b : Nat, AccProp rows a b ↔ AccProp rows b a) :
    ∀ a b : Nat, AccProp rows2 a b ↔ AccProp rows2 b a := by
  intro a b
  by_cases hab1 : a = f ∧ b = u
  · obtain ⟨ha, hb⟩ := hab1
    subst ha; subst hb
    exact iff_of_true h1 h2
  · by_cases hab2 : a = u ∧ b = f
    · obtain ⟨ha, hb⟩ := hab2
      subst ha; subst hb
      exact iff_of_true h2 h1
    · have hba1 : ¬ (b = f ∧ a = u) := fun hh => hab2 ⟨hh.2, hh.1⟩
      have hba2 : ¬ (b = u ∧ a = f) := fun hh => hab1 ⟨hh.2, hh.1⟩
      rw [hother a b hab1 hab2, hother b a hba1 hba2]
      exact hinvP a b

/-- C6 amended: provided the friendships table holds at most one row per
ordered pair, every state satisfying the mutual-friendship invariant is taken
to a state satisfying it again by each of `send`, `accept`, and `decline`. -/
theorem mutual_inv_preserved (u f : Nat) (db : DB)
    (hinv : MutualInv db) (hone : AtMostOneEdge db) :
    MutualInv (send u f db).2 ∧ MutualInv (accept u f db).2 ∧
    MutualInv (decline u f db).2 := by
  have hinvP : ∀ a b : Nat, AccProp db.friendships a b ↔ AccProp db.friendships b a :=
    (mutualInv_iff db).mp hinv
  refine ⟨?_, ?_, ?_⟩
  · by_cases hmem : f ∈ db.users
    · by_cases hex : nonAcceptedExists u f db
      · rw [send_eq_update u f db hmem hex]
        rw [mutualInv_iff]
        obtain ⟨x, hx, hx1, hx2, hx3⟩ := hex
        have hnacc : ¬ AccProp db.friendships u f :=
          not_accProp_of_atMostOne u f db.friendships (hone u f) x hx
            (by simp [matchesPair, hx1, hx2]) hx3
        exact mutualInv_update_nonaccepted u f .requested (by decide) db.friendships
          hinvP hnacc
      · rw [send_eq_insert u f db hmem hex, mutualInv_iff]
        intro a b
        rw [accProp_append, accProp_append]
        have hs : ∀ c d : Nat, ¬ AccProp [⟨u, f, FriendshipStatus.requested⟩] c d := by
          intro c d h
          rw [accProp_singleton] at h
          exact absurd h.2.2 (by simp)
        constructor
        · rintro (h | h)
          · exact Or.inl ((hinvP a b).mp h)
          · exact (hs a b h).elim
        · rintro (h | h)
          · exact Or.inl ((hinvP b a).mp h)
          · exact (hs b a h).elim
    · rw [send_eq_of_not_mem u f db hmem]
      exact hinv
  · by_cases hpend : pendingExists f u db
    · obtain ⟨x, hx, hx1, hx2, hx3⟩ := hpend
      have hpend2 : pendingExists f u db := ⟨x, hx, hx1, hx2, hx3⟩
      have hfu0 : AccProp (updateStatus f u .accepted db.friendships) f u :=
        (accProp_updateStatus_accepted_self f u db.friendships).mpr ⟨x, hx, hx1, hx2⟩
      cases hfind : (updateStatus f u .accepted db.friendships).find?
          (fun r => matchesPair u f r) with
      | none =>
        rw [accept_eq_insert u f db hpend2 hfind, mutualInv_iff]
        refine accept_rows_inv u f db.friendships _ ?_ ?_ ?_ hinvP
        · exact (accProp_append _ _ f u).mpr (Or.inl hfu0)
        · exact (accProp_append _ _ u f).mpr
            (Or.inr ((accProp_singleton _ u f).mpr ⟨rfl, rfl, rfl⟩))
        · intro a b hn1 hn2
          rw [accProp_append]
          constructor
          · rintro (h | h)
            · exact (accProp_updateStatus_of_ne f u a b .accepted _
                (not_and_or.mp hn1)).mp h
            · rw [accProp_singleton] at h
              exact absurd ⟨h.1.symm, h.2.1.symm⟩ hn2
          · intro h
            exact Or.inl ((accProp_updateStatus_of_ne f u a b .accepted _
              (not_and_or.mp hn1)).mpr h)
      | some z =>
        rw [accept_eq_update u f db hpend2 z hfind, mutualInv_iff]
        have hz := List.find?_some hfind
        simp only [matchesPair, Bool.and_eq_true, beq_iff_eq] at hz
        have hzmem := List.mem_of_find?_eq_some hfind
        have h2 : AccProp
            (updateStatus u f .accepted (updateStatus f u .accepted db.friendships))
            u f :=
          (accProp_updateStatus_accepted_self u f _).mpr ⟨z, hzmem, hz.1, hz.2⟩
        have h1 : AccProp
            (updateStatus u f .accepted (updateStatus f u .accepted db.friendships))
            f u := by
          by_cases huf : u = f
          · subst huf
            exact h2
          · rw [accProp_updateStatus_of_ne u f f u .accepted _
              (Or.inl (fun hh => huf hh.symm))]
            exact hfu0
        refine accept_rows_inv u f db.friendships _ h1 h2 ?_ hinvP
        intro a b hn1 hn2
        rw [accProp_updateStatus_of_ne u f a b .accepted _ (not_and_or.mp hn2)]
        exact accProp_updateStatus_of_ne f u a b .accepted _ (not_and_or.mp hn1)
    · rw [accept_eq_of_not_pending u f db hpend]
      exact hinv
  · by_cases hpend : pendingExists f u db
    · obtain ⟨x, hx, hx1, hx2, hx3⟩ := hpend
      rw [decline_eq_update u f db ⟨x, hx, hx1, hx2, hx3⟩, mutualInv_iff]
      have hnacc : ¬ AccProp db.friendships f u :=
        not_accProp_of_atMostOne f u db.friendships (hone f u) x hx
          (by simp [matchesPair, hx1, hx2])
          (by rw [hx3]; decide)
      exact mutualInv_update_nonaccepted f u .declined (by decide) db.friendships
        hinvP hnacc
    · rw [decline_eq_of_not_pending u f db hpend]
      exact hinv

theorem mutual_inv_preserved_witness :
    MutualInv (send 1 2 ⟨[1, 2], []⟩).2 ∧ MutualInv (accept 1 2 ⟨[1, 2], []⟩).2 ∧
    MutualInv (decline 1 2 ⟨[1, 2], []⟩).2 :=
  mutual_inv_preserved 1 2 ⟨[1, 2], []⟩ (fun _ _ => Iff.rfl) (fun _ _ => Nat.zero_le 1)

/-- C6 counterexample: the mutual-friendship invariant is not preserved in
general. The state reached from an empty friendships table by
`send 1 2`, `accept 2 1`, `send 1 2` satisfies the invariant, yet
`decline 2 1` succeeds from it and produces a state where the accepted edge
`(2, 1)` remains while no accepted edge `(1, 2)` exists. -/
theorem mutual_inv_broken_by_decline :
    (send 1 2 ⟨[1, 2], []⟩).2 = ⟨[1, 2], [⟨1, 2, .requested⟩]⟩ ∧
    (accept 2 1 ⟨[1, 2], [⟨1, 2, .requested⟩]⟩).2 =
      ⟨[1, 2], [⟨1, 2, .accepted⟩, ⟨2, 1, .accepted⟩]⟩ ∧
    (send 1 2 ⟨[1, 2], [⟨1, 2, .accepted⟩, ⟨2, 1, .accepted⟩]⟩).2 =
      ⟨[1, 2], [⟨1, 2, .accepted⟩, ⟨2, 1, .accepted⟩, ⟨1, 2, .requested⟩]⟩ ∧
    MutualInv ⟨[1, 2], [⟨1, 2, .accepted⟩, ⟨2, 1, .accepted⟩, ⟨1, 2, .requested⟩]⟩ ∧
    (decline 2 1
      ⟨[1, 2], [⟨1, 2, .accepted⟩, ⟨2, 1, .accepted⟩, ⟨1, 2, .requested⟩]⟩).1 =
      .ok () ∧
    ¬ MutualInv (decline 2 1
      ⟨[1, 2], [⟨1, 2, .accepted⟩, ⟨2, 1, .accepted⟩, ⟨1, 2, .requested⟩]⟩).2 := by
  refine ⟨rfl, rfl, rfl, ?_, rfl, ?_⟩
  · intro a b
    rw [hasAccepted_iff, hasAccepted_iff]
    constructor
    · rintro ⟨r, hr, h1, h2, h3⟩
      simp only [List.mem_cons, List.not_mem_nil, or_false] at hr
      rcases hr with rfl | rfl | rfl
      · exact ⟨⟨2, 1, .accepted⟩, by simp, h2, h1, rfl⟩
      · exact ⟨⟨1, 2, .accepted⟩, by simp, h2, h1, rfl⟩
      · exact absurd h3 (by decide)
    · rintro ⟨r, hr, h1, h2, h3⟩
      simp only [List.mem_cons, List.not_mem_nil, or_false] at hr
      rcases hr with rfl | rfl | rfl
      · exact ⟨⟨2, 1, .accepted⟩, by simp, h2, h1, rfl⟩
      · exact ⟨⟨1, 2, .accepted⟩, by simp, h2, h1, rfl⟩
      · exact absurd h3 (by decide)
  · intro h
    exact (by decide :
      ¬ (hasAccepted (decline 2 1
          ⟨[1, 2], [⟨1, 2, .accepted⟩, ⟨2, 1, .accepted⟩, ⟨1, 2, .requested⟩]⟩).2
          2 1 = true ↔
        hasAccepted (decline 2 1
          ⟨[1, 2], [⟨1, 2, .accepted⟩, ⟨2, 1, .accepted⟩, ⟨1, 2, .requested⟩]⟩).2
          1 2 = true)) (h 2 1)

theorem matchesPair_setStatus (a b : Nat) (s : FriendshipStatus) (r : Friendship) :
    matchesPair a b { r with status := s } = matchesPair a b r := rfl

theorem matchesPair_of_ite (a b u0 f0 : Nat) (s : FriendshipStatus) (r : Friendship) :
    matchesPair a b (if matchesPair u0 f0 r then { r with status := s } else r) =
      matchesPair a b r := by
  by_cases h : matchesPair u0 f0 r = true
  · rw [if_pos h]
    exact rfl
  · rw [if_neg h]

theorem updateStatus_twice (u f : Nat) (rows : List Friendship) :
    updateStatus u f .accepted (updateStatus f u .accepted rows) =
      rows.map (fun r => if matchesPair f u r || matchesPair u f r then { r with status := FriendshipStatus.accepted } else r) := by
  unfold updateStatus
  rw [List.map_map]
  congr 1
  funext r
  simp only [Function.comp]
  by_cases h1 : matchesPair f u r = true
  · rw [if_pos h1, matchesPair_setStatus]
    by_cases h2 : matchesPair u f r = true
    · rw [if_pos h2, if_pos (by rw [h1]; rfl)]
    · rw [if_neg h2, if_pos (by rw [h1]; rfl)]
  · rw [if_neg h1]
    have hb1 : matchesPair f u r = false := by
      cases hb : matchesPair f u r
      · rfl
      · exact absurd hb h1
    by_cases h2 : matchesPair u f r = true
    · rw [if_pos h2, if_pos (by rw [h2, Bool.or_true])]
    · have hb2 : matchesPair u f r = false := by
        cases hb : matchesPair u f r
        · rfl
        · exact absurd hb h2
      rw [if_neg h2, if_neg (by rw [hb1, hb2]; decide)]

/-- C8: a successful `accept u f` leaves the users table unchanged, adds at
most one friendships row, rewrites every pre-existing row keyed `(f, u)` or
`(u, f)` to status `accepted` (whatever its prior status, declined included),
leaves every other pre-existing row exactly as it was at its position, and
any row beyond the original length is exactly `(u, f, accepted)`. -/
theorem accept_frame (u f : Nat) (db : DB)
    (hok : (accept u f db).1 = .ok ()) :
    (accept u f db).2.users = db.users ∧
    ((accept u f db).2.friendships.length = db.friendships.length ∨
      (accept u f db).2.friendships.length = db.friendships.length + 1) ∧
    (∀ i : Nat, i < db.friendships.length →
      (accept u f db).2.friendships[i]? =
        (db.friendships[i]?).map (fun r => if matchesPair f u r || matchesPair u f r then { r with status := FriendshipStatus.accepted } else r)) ∧
    (∀ i : Nat, db.friendships.length ≤ i →
      (accept u f db).2.friendships[i]? = none ∨
      (accept u f db).2.friendships[i]? = some ⟨u, f, .accepted⟩) := by
  by_cases hpend : pendingExists f u db
  · cases hfind : (updateStatus f u .accepted db.friendships).find?
        (fun r => matchesPair u f r) with
    | none =>
      rw [accept_eq_insert u f db hpend hfind]
      have hlen : (updateStatus f u FriendshipStatus.accepted db.friendships).length =
          db.friendships.length := List.length_map _ _
      refine ⟨rfl, ?_, ?_, ?_⟩
      · right
        rw [List.length_append, hlen]
        rfl
      · intro i hi
        rw [List.getElem?_append_left (by rw [hlen]; exact hi)]
        unfold updateStatus
        rw [List.getElem?_map, List.getElem?_eq_getElem hi]
        simp only [Option.map_some']
        congr 1
        have hmem : db.friendships[i] ∈ db.friendships := List.getElem_mem hi
        have hnp := List.find?_eq_none.mp hfind
          ((fun r => if matchesPair f u r then { r with status := FriendshipStatus.accepted } else r) db.friendships[i])
          (by unfold updateStatus; exact List.mem_map_of_mem _ hmem)
        rw [matchesPair_of_ite] at hnp
        have hfalse : matchesPair u f db.friendships[i] = false := by
          cases hb : matchesPair u f db.friendships[i]
          · rfl
          · exact absurd hb hnp
        rw [hfalse, Bool.or_false]
      · intro i hi
        rw [List.getElem?_append_right (by rw [hlen]; exact hi), hlen]
        by_cases hieq : i = db.friendships.length
        · subst hieq
          rw [Nat.sub_self]
          exact Or.inr rfl
        · left
          cases hk : i - db.friendships.length with
          | zero => omega
          | succ k => exact rfl
    | some z =>
      rw [accept_eq_update u f db hpend z hfind]
      refine ⟨rfl, ?_, ?_, ?_⟩
      · left
        rw [updateStatus_twice]
        exact List.length_map _ _
      · intro i hi
        rw [updateStatus_twice, List.getElem?_map]
      · intro i hi
        left
        rw [updateStatus_twice]
        exact List.getElem?_eq_none_iff.mpr (by rw [List.length_map]; exact hi)
  · rw [accept_eq_of_not_pending u f db hpend] at hok
    exact absurd hok (by simp)

theorem accept_frame_witness :
    (accept 2 1 ⟨[1, 2, 3], [⟨1, 2, .requested⟩, ⟨2, 1, .declined⟩, ⟨1, 3, .requested⟩]⟩).1 =
      .ok () ∧
    (accept 2 1 ⟨[1, 2, 3], [⟨1, 2, .requested⟩, ⟨2, 1, .declined⟩, ⟨1, 3, .requested⟩]⟩).2.users =
      [1, 2, 3] ∧
    ((accept 2 1 ⟨[1, 2, 3], [⟨1, 2, .requested⟩, ⟨2, 1, .declined⟩, ⟨1, 3, .requested⟩]⟩).2.friendships.length = 3 ∨
      (accept 2 1 ⟨[1, 2, 3], [⟨1, 2, .requested⟩, ⟨2, 1, .declined⟩, ⟨1, 3, .requested⟩]⟩).2.friendships.length = 3 + 1) := by
  have h := accept_frame 2 1
    ⟨[1, 2, 3], [⟨1, 2, .requested⟩, ⟨2, 1, .declined⟩, ⟨1, 3, .requested⟩]⟩ (by rfl)
  exact ⟨by rfl, h.1, h.2.1⟩

end FriendshipApp
